import Mathlib

/-!
Verification of the lyra cockpit execution engine against its design notes.
The Rust sources are embedded shallowly: pure functions become Lean
functions over `Nat`/`Int`/`ℚ`, fallible paths return `Option`, and the
keccak hash and wallet signing primitives are threaded as explicit
function parameters (the development proves structural properties of the
encodings, never properties of the hash itself).
-/

namespace Cockpit

/-! ## Byte-level ABI encoding (lyra-client/src/orders.rs) -/

/-- Big-endian base-256 digits of `n`, `k` bytes wide (leading zero bytes
pad the value on the left, i.e. the value is right-aligned). -/
def beBytes : Nat → Nat → List Nat
  | 0, _ => []
  | k + 1, n => beBytes k (n / 256) ++ [n % 256]

/-- Numeric value of a big-endian byte string. -/
def wordValue (l : List Nat) : Nat :=
  l.foldl (fun a b => a * 256 + b) 0

/-- One 32-byte ABI word holding an unsigned value (`U256`, `Address`
and `bool` all encode this way in `EthAbiCodec`). -/
def abiWordN (n : Nat) : List Nat :=
  beBytes 32 (n % 2 ^ 256)

/-- One 32-byte ABI word holding a signed value (`I256`), two's complement. -/
def abiWordI (i : Int) : List Nat :=
  beBytes 32 (i.emod (2 ^ 256)).toNat

/-- One 32-byte ABI word holding a boolean. -/
def boolWord (b : Bool) : List Nat :=
  abiWordN (if b then 1 else 0)

/-! ## Trade and action records (lyra-client/src/orders.rs, TradeData / ActionData) -/

structure TradeData where
  address : Nat
  sub_id : Nat
  limit_price : Int
  amount : Int
  max_fee : Nat
  subaccount_id : Nat
  is_bid : Bool
deriving DecidableEq

structure ActionData where
  action_typehash : List Nat
  subaccount_id : Nat
  nonce : Nat
  module : Nat
  data : List Nat
  expiry : Nat
  owner : Nat
  signer : Nat
deriving DecidableEq

/-- `EthAbiCodec` encoding of `TradeData`: head-only concatenation of
32-byte words in declared field order. -/
def encodeTradeData (t : TradeData) : List Nat :=
  abiWordN t.address ++ abiWordN t.sub_id ++ abiWordI t.limit_price ++
    abiWordI t.amount ++ abiWordN t.max_fee ++ abiWordN t.subaccount_id ++
    boolWord t.is_bid

/-- `EthAbiCodec` encoding of `ActionData`: the 32-byte typehash and hash
fields pass through verbatim, numeric fields become 32-byte words, all in
declared field order. -/
def encodeActionData (a : ActionData) : List Nat :=
  a.action_typehash ++ abiWordN a.subaccount_id ++ abiWordN a.nonce ++
    abiWordN a.module ++ a.data ++ abiWordN a.expiry ++ abiWordN a.owner ++
    abiWordN a.signer

/-- Signing configuration read from the environment by the Rust code
(OWNER_PUBLIC_KEY, ACTION_TYPEHASH, DOMAIN_SEPARATOR, TRADE_ADDRESS). -/
structure SigningEnv where
  owner : Nat
  action_typehash : List Nat
  domain_sep : List Nat
  trade_module : Nat

/-- A wallet: its address plus the recoverable-signing primitive
`sign_hash`, threaded as an explicit function. -/
structure Wallet where
  address : Nat
  signFn : List Nat → List Nat

/-- The fixed 2-byte EIP-191 prefix 0x1901. -/
def eip1901 : List Nat := [0x19, 0x01]

/-- Modelled from the spec: `decimal_to_i256` lives in
`lyra-client/src/utils.rs`, which is absent from the sources; the spec
fixes a constant decimal scale (10^18) and says overflow fails the
authorization attempt. -/
def decimal_to_i256 (q : ℚ) : Option Int :=
  let s : ℚ := q * 10 ^ 18
  if s.den = 1 ∧ -(2 ^ 255) ≤ s.num ∧ s.num < 2 ^ 255 then some s.num else none

/-- Modelled from the spec: unsigned counterpart of `decimal_to_i256`,
also from the absent `lyra-client/src/utils.rs`. -/
def decimal_to_u256 (q : ℚ) : Option Nat :=
  let s : ℚ := q * 10 ^ 18
  if s.den = 1 ∧ 0 ≤ s.num ∧ s.num < 2 ^ 256 then some s.num.toNat else none

/-! ## Market data model (Ticker fields used by orders.rs and the vaults) -/

/-- A plain decimal number: `mantissa * 10^(-scale)`, mirroring the
`BigDecimal` representation whose `fractional_digit_count` is its scale. -/
structure Decimal where
  mantissa : Int
  scale : Int
deriving DecidableEq

def Decimal.toRat (d : Decimal) : ℚ :=
  (d.mantissa : ℚ) * (10 : ℚ) ^ (-d.scale)

def Decimal.fractional_digit_count (d : Decimal) : Int := d.scale

structure OptionPricing where
  delta : ℚ
deriving DecidableEq

/-- Snapshot of one instrument ticker (the fields the embedded code reads). -/
structure Ticker where
  instrument_name : String
  mark_price : ℚ
  index_price : ℚ
  tick_size : Decimal
  min_price : ℚ
  amount_step : Decimal
  minimum_amount : ℚ
  maker_fee_rate : ℚ
  taker_fee_rate : ℚ
  base_asset_address : Nat
  base_asset_sub_id : Nat
  option_pricing : Option OptionPricing
deriving DecidableEq

/-- `OrderTicker::get_max_fee`: 3 × taker fee rate × index price. -/
def get_max_fee (t : Ticker) : ℚ :=
  3 * t.taker_fee_rate * t.index_price

/-! ## Order signing (lyra-client/src/orders.rs, get_order_signature) -/

/-- The trade record built inside `get_order_signature`. -/
def tradeDataOf (subaccount_id : Nat) (lp am : Int) (mf : Nat) (is_bid : Bool)
    (t : Ticker) : TradeData :=
  { address := t.base_asset_address
    sub_id := t.base_asset_sub_id
    limit_price := lp
    amount := am
    max_fee := mf
    subaccount_id := subaccount_id
    is_bid := is_bid }

/-- The digest actually signed: keccak(0x1901 ‖ domain separator ‖
keccak(action record)), where the action record carries
keccak(trade record) in its `data` field. -/
def signedDigest (keccak : List Nat → List Nat) (env : SigningEnv)
    (subaccount_id nonce expiry : Nat) (tradeEncoding : List Nat)
    (w : Wallet) : List Nat :=
  keccak (eip1901 ++ env.domain_sep ++
    keccak (encodeActionData
      { action_typehash := env.action_typehash
        subaccount_id := subaccount_id
        nonce := nonce
        module := env.trade_module
        data := keccak tradeEncoding
        expiry := expiry
        owner := env.owner
        signer := w.address }))

/-- `get_order_signature`: converts the decimal inputs to fixed point,
builds the trade and action records, hashes, and signs the final digest. -/
def get_order_signature (keccak : List Nat → List Nat) (env : SigningEnv)
    (subaccount_id nonce signature_expiry_sec : Nat)
    (limit_price amount : ℚ) (is_bid : Bool) (max_fee : ℚ)
    (signer : Wallet) (ticker : Ticker) : Option (List Nat) :=
  (decimal_to_i256 limit_price).bind fun lp =>
    (decimal_to_i256 amount).bind fun am =>
      (decimal_to_u256 max_fee).map fun mf =>
        signer.signFn
          (signedDigest keccak env subaccount_id nonce signature_expiry_sec
            (encodeTradeData (tradeDataOf subaccount_id lp am mf is_bid ticker))
            signer)

/-! ## Order construction (lyra-client/src/orders.rs, new_order_params / new_replace_params) -/

inductive Direction | Buy | Sell
deriving DecidableEq

inductive TimeInForce | Gtc | Ioc | Fok | PostOnly
deriving DecidableEq

inductive OrderType | Limit | Market
deriving DecidableEq

structure OrderArgs where
  amount : ℚ
  limit_price : ℚ
  direction : Direction
  time_in_force : TimeInForce
  order_type : OrderType
  label : String
  mmp : Bool

structure OrderParams where
  instrument_name : String
  subaccount_id : Nat
  amount : ℚ
  limit_price : ℚ
  direction : Direction
  time_in_force : TimeInForce
  order_type : OrderType
  mmp : Bool
  max_fee : ℚ
  label : String
  nonce : Nat
  reject_timestamp : Nat
  signature_expiry_sec : Nat
  signer : Nat
  signature : List Nat
deriving DecidableEq

structure ReplaceParams extends OrderParams where
  order_id_to_cancel : Nat
deriving DecidableEq

/-- `get_timestamps`, with the current time passed in explicitly as
microseconds since the epoch: nonce is the microsecond timestamp, the
reject timestamp is 5 s ahead in milliseconds, the signature expiry is
600 s ahead in seconds. -/
def get_timestamps (now_micros : Nat) : Nat × Nat × Nat :=
  (now_micros, (now_micros + 5000000) / 1000, (now_micros + 600000000) / 1000000)

def new_order_params (keccak : List Nat → List Nat) (env : SigningEnv)
    (signer : Wallet) (ticker : Ticker) (subaccount_id : Nat)
    (args : OrderArgs) (now_micros : Nat) : Option OrderParams :=
  let max_fee := get_max_fee ticker
  let (nonce, reject_timestamp, signature_expiry_sec) := get_timestamps now_micros
  (get_order_signature keccak env subaccount_id nonce signature_expiry_sec
      args.limit_price args.amount (args.direction = Direction.Buy) max_fee
      signer ticker).map fun s =>
    { instrument_name := ticker.instrument_name
      subaccount_id := subaccount_id
      amount := args.amount
      limit_price := args.limit_price
      direction := args.direction
      time_in_force := args.time_in_force
      order_type := args.order_type
      mmp := args.mmp
      max_fee := max_fee
      label := args.label
      nonce := nonce
      reject_timestamp := reject_timestamp
      signature_expiry_sec := signature_expiry_sec
      signer := signer.address
      signature := s }

def new_replace_params (keccak : List Nat → List Nat) (env : SigningEnv)
    (signer : Wallet) (ticker : Ticker) (subaccount_id : Nat)
    (order_id_to_cancel : Nat) (args : OrderArgs) (now_micros : Nat) :
    Option ReplaceParams :=
  let max_fee := get_max_fee ticker
  let (nonce, reject_timestamp, signature_expiry_sec) := get_timestamps now_micros
  (get_order_signature keccak env subaccount_id nonce signature_expiry_sec
      args.limit_price args.amount (args.direction = Direction.Buy) max_fee
      signer ticker).map fun s =>
    { instrument_name := ticker.instrument_name
      subaccount_id := subaccount_id
      amount := args.amount
      limit_price := args.limit_price
      direction := args.direction
      time_in_force := args.time_in_force
      order_type := args.order_type
      mmp := args.mmp
      max_fee := max_fee
      label := args.label
      nonce := nonce
      reject_timestamp := reject_timestamp
      signature_expiry_sec := signature_expiry_sec
      signer := signer.address
      signature := s
      order_id_to_cancel := order_id_to_cancel }

/-! ## Market state (lyra-vaults/src/market.rs interface used by the policies) -/

structure Position where
  amount : ℚ
deriving DecidableEq

/-- The market cache: instrument name keyed maps of tickers and
positions (association lists, looked up by name). -/
structure MarketState where
  tickers : List (String × Ticker)
  positions : List (String × Position)

def MarketState.get_ticker (m : MarketState) (name : String) : Option Ticker :=
  m.tickers.lookup name

def MarketState.get_position (m : MarketState) (name : String) : Option Position :=
  m.positions.lookup name

/-! ## Rounding helpers (BigDecimal with_scale_round / round on ℚ) -/

/-- Truncation of a rational toward zero, the `RoundingMode::Down` of the
`bigdecimal` crate. -/
def ratTrunc (x : ℚ) : Int :=
  if 0 ≤ x then ⌊x⌋ else -⌊-x⌋

/-- `with_scale_round(d, RoundingMode::Down)`: keep `d` fractional digits,
rounding toward zero. -/
def roundScaleDown (x : ℚ) (d : Int) : ℚ :=
  (ratTrunc (x * (10 : ℚ) ^ d) : ℚ) * (10 : ℚ) ^ (-d)

/-- `BigDecimal::round(d)`: keep `d` fractional digits, rounding half to
even. -/
def roundScaleHalfEven (x : ℚ) (d : Int) : ℚ :=
  let s := x * (10 : ℚ) ^ d
  let f := ⌊s⌋
  let n : Int :=
    if s - f < 1 / 2 then f
    else if 1 / 2 < s - f then f + 1
    else if f % 2 = 0 then f else f + 1
  (n : ℚ) * (10 : ℚ) ^ (-d)

/-! ## Spot rebalance policy (lyra-vaults/src/shared/spot_auction.rs) -/

/-- Parameters of the spot rebalance auction. The struct itself lives in
the absent `lyra-vaults/src/shared/params.rs`; the fields and the spread
schedule are modelled from the spec (cash position name, maximum residual
cash band, and a spot spread that widens linearly per elapsed minute up to
a cap). -/
structure SpotAuctionParams where
  cash_name : String
  max_cash : ℚ
  init_spot_spread : ℚ
  spot_spread_per_min : ℚ
  max_spot_spread : ℚ

/-- Modelled from the spec: `get_spot_spread` (absent
`lyra-vaults/src/shared/params.rs`) widens linearly with elapsed minutes
since the auction start, capped at the configured maximum. -/
def SpotAuctionParams.get_spot_spread (p : SpotAuctionParams)
    (start_timestamp_sec now_sec : Int) : ℚ :=
  min (p.init_spot_spread +
        ((now_sec - start_timestamp_sec : Int) : ℚ) / 60 * p.spot_spread_per_min)
    p.max_spot_spread

/-- The auction instance handed to the pricing policy. The struct lives in
the absent `lyra-vaults/src/shared/auction.rs`; the fields the policy
reads are its market handle, instrument name, start timestamp and
duration. -/
structure LimitOrderAuction where
  market : MarketState
  instrument_name : String
  start_timestamp_sec : Int
  auction_sec : Int

/-- Modelled from the spec: `remain_sec` (absent
`lyra-vaults/src/shared/auction.rs`) is the time left in the nominal
auction window `Active(start, duration)`. -/
def LimitOrderAuction.remain_sec (a : LimitOrderAuction) (now_sec : Int) : Int :=
  a.start_timestamp_sec + a.auction_sec - now_sec

/-- `SpotAuctionParams::get_desired_price`: error when the auction ticker
is missing; the zero no-op sentinel when the cash position is missing or
flat; otherwise the mark price shifted by the spot spread (up when buying,
down when selling), rounded to the tick size and floored at the minimum
price. The f64 arithmetic of the source is modelled over ℚ. -/
def get_desired_price (p : SpotAuctionParams) (a : LimitOrderAuction)
    (now_sec : Int) : Option ℚ :=
  match a.market.get_ticker a.instrument_name with
  | none => none
  | some ticker =>
    match a.market.get_position p.cash_name with
    | none => some 0
    | some cash_pos =>
      if cash_pos.amount = 0 then some 0
      else
        let spread := p.get_spot_spread a.start_timestamp_sec now_sec
        let spot := ticker.mark_price
        let price := if cash_pos.amount < 0 then spot * (1 - spread)
          else spot * (1 + spread)
        some (max (roundScaleHalfEven price ticker.tick_size.fractional_digit_count)
          ticker.min_price)

/-- The sizing computation of `get_desired_amount` after its guards:
direction from the sign of cash / price, magnitude rounded toward zero at
the amount step's fractional digits, zeroed below the minimum amount. -/
def spotSizing (ticker : Ticker) (cashAmount price : ℚ) : Direction × ℚ :=
  let amount := cashAmount / price
  let dirAmt : Direction × ℚ :=
    if amount ≤ 0 then (Direction.Sell, -amount) else (Direction.Buy, amount)
  let rounded := roundScaleDown dirAmt.2 ticker.amount_step.fractional_digit_count
  if rounded < ticker.minimum_amount then (Direction.Sell, 0)
  else (dirAmt.1, rounded)

/-- `SpotAuctionParams::get_desired_amount`: error when the auction ticker
is missing; the `(Sell, 0)` no-op when the cash position is missing or the
price is zero; the `(Sell, 0)` no-op when the nominal window has elapsed
and the cash amount exceeds `-max_cash`; otherwise `spotSizing`. -/
def get_desired_amount (p : SpotAuctionParams) (a : LimitOrderAuction)
    (now_sec : Int) (price : ℚ) : Option (Direction × ℚ) :=
  match a.market.get_ticker a.instrument_name with
  | none => none
  | some ticker =>
    match a.market.get_position p.cash_name with
    | none => some (Direction.Sell, 0)
    | some cash_pos =>
      if price = 0 then some (Direction.Sell, 0)
      else if a.remain_sec now_sec ≤ 0 ∧ cash_pos.amount > -p.max_cash then
        some (Direction.Sell, 0)
      else some (spotSizing ticker cash_pos.amount price)

/-! ## Option auction spread schedule (lyra-vaults/src/lrtc/params.rs) -/

structure OptionAuctionParams where
  max_iv_spread : ℚ
  init_iv_spread : ℚ
  iv_spread_per_min : ℚ
  auction_sec : Int
  price_change_tolerance : ℚ
  spot_name : String

/-- `OptionAuctionParams::get_iv_spread`: the configured initial spread
plus the per-minute widening times elapsed minutes, capped at the maximum
spread. The f64 arithmetic of the source is modelled over ℚ. -/
def OptionAuctionParams.get_iv_spread (p : OptionAuctionParams)
    (start_timestamp_sec now_sec : Int) : ℚ :=
  min (p.init_iv_spread +
        ((now_sec - start_timestamp_sec : Int) : ℚ) / 60 * p.iv_spread_per_min)
    p.max_iv_spread

structure LRTCParams where
  option_currency : String
  expiry_days : Nat
  min_expiry_hours : Nat
  target_delta : ℚ
  max_delta : ℚ

def LRTCParams.expiry_sec (p : LRTCParams) : Int :=
  (p.expiry_days : Int) * 86400

def LRTCParams.min_expiry_sec (p : LRTCParams) : Int :=
  (p.min_expiry_hours : Int) * 3600

/-! ## Option selection (lyra-vaults/src/lrtc/selector.rs) -/

inductive OptionType | Call | Put
deriving DecidableEq

def OptionType.is_call : OptionType → Bool
  | .Call => true
  | .Put => false

structure OptionDetails where
  option_type : OptionType
  expiry : Int
deriving DecidableEq

/-- One row of the `public/get_instruments` response (queried with
`expired: false`, so every row is a live instrument). -/
structure Instrument where
  instrument_name : String
  is_active : Bool
  option_details : Option OptionDetails
deriving DecidableEq

/-- The instrument filter of `select_option`: active call options whose
expiry falls strictly before `now` plus the expiry horizon. -/
def optionFilter (now horizon_sec : Int) (r : Instrument) : Bool :=
  match r.option_details with
  | some d => r.is_active && d.option_type.is_call && decide (d.expiry < now + horizon_sec)
  | none => false

def instrumentExpiry (r : Instrument) : Int :=
  (r.option_details.map OptionDetails.expiry).getD 0

/-- Running maximum of `Iterator::max`. -/
def listMaxAux : Int → List Int → Int
  | x, [] => x
  | x, y :: ys => listMaxAux (max x y) ys

/-- `Iterator::max` over a list of ordered values. -/
def listMax : List Int → Option Int
  | [] => none
  | x :: xs => some (listMaxAux x xs)

/-- First stage of `select_option`: the expiry bucket is the maximum
expiry among the filtered instruments; `none` is the "No options found
within the LRTC params" error. -/
def selectExpiry (now horizon_sec : Int) (instruments : List Instrument) :
    Option Int :=
  listMax ((instruments.filter (optionFilter now horizon_sec)).map instrumentExpiry)

/-- The delta filter of `select_option`: keeps tickers with pricing whose
delta is strictly below the single configured delta parameter. -/
def hasDeltaBelow (desired_delta : ℚ) (t : Ticker) : Bool :=
  match t.option_pricing with
  | some pr => decide (pr.delta < desired_delta)
  | none => false

/-- Absolute distance from a ticker's delta to the configured delta. -/
def deltaKey (desired_delta : ℚ) (t : Ticker) : ℚ :=
  |((t.option_pricing.map OptionPricing.delta).getD 0) - desired_delta|

/-- Running minimum of `Iterator::min_by_key`: the accumulator (the
earlier element) is kept on ties. -/
def minByKeyAux (key : Ticker → ℚ) : Ticker → List Ticker → Ticker
  | t, [] => t
  | t, u :: us => minByKeyAux key (if key t ≤ key u then t else u) us

/-- `Iterator::min_by_key`: the first element attaining the minimal key. -/
def minByKeyFirst (key : Ticker → ℚ) : List Ticker → Option Ticker
  | [] => none
  | t :: ts => some (minByKeyAux key t ts)

/-- Second stage of `select_option`: among the subscribed tickers, keep
those with delta strictly below the configured delta and return the name
of the one whose delta is closest to that same configured delta. -/
def selectByDelta (desired_delta : ℚ) (tickers : List Ticker) : Option String :=
  (minByKeyFirst (deltaKey desired_delta)
      (tickers.filter (hasDeltaBelow desired_delta))).map Ticker.instrument_name

/-- The whole of `select_option`: pick the expiry bucket, subscribe to the
bucket's instruments (modelled by a name-indexed ticker lookup for the
fresh market), then select by delta. -/
def select_option (now horizon_sec : Int) (desired_delta : ℚ)
    (instruments : List Instrument) (tickerFor : String → Option Ticker) :
    Option String :=
  match selectExpiry now horizon_sec instruments with
  | none => none
  | some expiry =>
    let names := ((instruments.filter (optionFilter now horizon_sec)).filter
        (fun r => instrumentExpiry r = expiry)).map Instrument.instrument_name
    selectByDelta desired_delta (names.filterMap tickerFor)

/-! ## Deposit reconciliation (lyra-vaults/src/web3/events.rs) -/

def MAX_TO_PROCESS_PER_CALL : Nat := 32

/-- The pending set: initiated deposit ids with no matching processed id. -/
def pendingDeposits (inits procs : List Nat) : List Nat :=
  inits.filter (fun i => !procs.contains i)

/-- The single `process_deposits` call submitted by one poll: `none` when
the pending set is empty (the poll returns success without a transaction),
otherwise the first `MAX_TO_PROCESS_PER_CALL` pending ids. -/
def depositBatch (inits procs : List Nat) : Option (List Nat) :=
  let pending := pendingDeposits inits procs
  if pending.isEmpty then none
  else some (pending.take MAX_TO_PROCESS_PER_CALL)

/-! ## Abbreviations used by the statements -/

/-- The rounded size produced by the spot-rebalance sizing step. -/
def spotRounded (t : Ticker) (cash price : ℚ) : ℚ :=
  roundScaleDown |cash / price| t.amount_step.fractional_digit_count

/-! ## Concrete fixtures for witnesses and counterexamples -/

def exKeccak : List Nat → List Nat := fun _ => List.replicate 32 0

def exSign : List Nat → List Nat := fun _ => [42]

def exEnv : SigningEnv :=
  { owner := 5
    action_typehash := List.replicate 32 2
    domain_sep := List.replicate 32 3
    trade_module := 9 }

def exWallet : Wallet := { address := 8, signFn := exSign }

def exTicker : Ticker :=
  { instrument_name := "LBTC-USDC"
    mark_price := 10
    index_price := 100
    tick_size := ⟨1, 2⟩
    min_price := 1 / 100
    amount_step := ⟨1, 2⟩
    minimum_amount := 1 / 100
    maker_fee_rate := 1 / 1000
    taker_fee_rate := 1 / 100
    base_asset_address := 1000
    base_asset_sub_id := 0
    option_pricing := none }

def exArgs : OrderArgs :=
  { amount := 2
    limit_price := 1
    direction := Direction.Buy
    time_in_force := TimeInForce.Gtc
    order_type := OrderType.Limit
    label := "vault"
    mmp := false }

def exOrderParams : OrderParams :=
  { instrument_name := "LBTC-USDC"
    subaccount_id := 7
    amount := 2
    limit_price := 1
    direction := Direction.Buy
    time_in_force := TimeInForce.Gtc
    order_type := OrderType.Limit
    mmp := false
    max_fee := 3
    label := "vault"
    nonce := 0
    reject_timestamp := 5000
    signature_expiry_sec := 600
    signer := 8
    signature := [42] }

def exReplaceParams : ReplaceParams :=
  { exOrderParams with order_id_to_cancel := 3 }

def exIvParams : OptionAuctionParams :=
  { max_iv_spread := 1
    init_iv_spread := 1 / 10
    iv_spread_per_min := 1 / 100
    auction_sec := 600
    price_change_tolerance := 1 / 100
    spot_name := "LBTC" }

def spotParams : SpotAuctionParams :=
  { cash_name := "USDC"
    max_cash := 10
    init_spot_spread := 1 / 100
    spot_spread_per_min := 1 / 100
    max_spot_spread := 5 / 100 }

def sellMarket : MarketState :=
  { tickers := [("LBTC-USDC", exTicker)]
    positions := [("USDC", ⟨-100⟩)] }

def sellAuction : LimitOrderAuction :=
  { market := sellMarket
    instrument_name := "LBTC-USDC"
    start_timestamp_sec := 0
    auction_sec := 600 }

def buyMarket : MarketState :=
  { tickers := [("LBTC-USDC", exTicker)]
    positions := [("USDC", ⟨50⟩)] }

def buyAuction : LimitOrderAuction :=
  { market := buyMarket
    instrument_name := "LBTC-USDC"
    start_timestamp_sec := 0
    auction_sec := 600 }

def lateMarket : MarketState :=
  { tickers := [("LBTC-USDC", exTicker)]
    positions := [("USDC", ⟨100⟩)] }

def lateAuction : LimitOrderAuction :=
  { market := lateMarket
    instrument_name := "LBTC-USDC"
    start_timestamp_sec := 0
    auction_sec := 60 }

def oddStepTicker : Ticker :=
  { exTicker with instrument_name := "WEETH-USDC", amount_step := ⟨2, 2⟩ }

def oddStepMarket : MarketState :=
  { tickers := [("WEETH-USDC", oddStepTicker)]
    positions := [("USDC", ⟨-3 / 10⟩)] }

def oddStepAuction : LimitOrderAuction :=
  { market := oddStepMarket
    instrument_name := "WEETH-USDC"
    start_timestamp_sec := 0
    auction_sec := 600 }

def noCashMarket : MarketState :=
  { tickers := [("LBTC-USDC", exTicker)]
    positions := [] }

def noCashAuction : LimitOrderAuction :=
  { market := noCashMarket
    instrument_name := "LBTC-USDC"
    start_timestamp_sec := 0
    auction_sec := 600 }

def tD20 : Ticker :=
  { exTicker with instrument_name := "ETH-D20", option_pricing := some ⟨2 / 10⟩ }

def tD35 : Ticker :=
  { exTicker with instrument_name := "ETH-D35", option_pricing := some ⟨35 / 100⟩ }

def tD50 : Ticker :=
  { exTicker with instrument_name := "ETH-D50", option_pricing := some ⟨5 / 10⟩ }

def c6params : LRTCParams :=
  { option_currency := "ETH"
    expiry_days := 7
    min_expiry_hours := 12
    target_delta := 3 / 10
    max_delta := 4 / 10 }

def iShort : Instrument :=
  { instrument_name := "ETH-1H-C"
    is_active := true
    option_details := some ⟨OptionType.Call, 3600⟩ }

def tShort : Ticker :=
  { exTicker with instrument_name := "ETH-1H-C", option_pricing := some ⟨2 / 10⟩ }

def shortTickerFor : String → Option Ticker :=
  fun n => if n = "ETH-1H-C" then some tShort else none

def iT1 : Instrument :=
  { instrument_name := "ETH-T1-C"
    is_active := true
    option_details := some ⟨OptionType.Call, 86400⟩ }

def iT2 : Instrument :=
  { instrument_name := "ETH-T2-C"
    is_active := true
    option_details := some ⟨OptionType.Call, 172800⟩ }

/-! ## Byte-encoding lemmas -/

theorem beBytes_length (k n : Nat) : (beBytes k n).length = k := by
  induction k generalizing n with
  | zero => rfl
  | succ k ih => simp [beBytes, ih]

theorem wordValue_append_byte (xs : List Nat) (b : Nat) :
    wordValue (xs ++ [b]) = wordValue xs * 256 + b := by
  simp [wordValue, List.foldl_append]

theorem mod_mul_decompose (n p : Nat) (hp : 0 < p) :
    n % (256 * p) = (n / 256 % p) * 256 + n % 256 := by
  have h1 : n = 256 * (n / 256) + n % 256 := (Nat.div_add_mod n 256).symm ▸ rfl
  have h2 : n / 256 = p * (n / 256 / p) + n / 256 % p :=
    (Nat.div_add_mod (n / 256) p).symm ▸ rfl
  have key : n = (n / 256 % p) * 256 + n % 256 + (256 * p) * (n / 256 / p) := by
    calc n = 256 * (n / 256) + n % 256 := h1
    _ = 256 * (p * (n / 256 / p) + n / 256 % p) + n % 256 := by rw [← h2]
    _ = (n / 256 % p) * 256 + n % 256 + (256 * p) * (n / 256 / p) := by ring
  have hlt : (n / 256 % p) * 256 + n % 256 < 256 * p := by
    have ha : n / 256 % p < p := Nat.mod_lt _ hp
    have hb : n % 256 < 256 := Nat.mod_lt _ (by norm_num)
    calc (n / 256 % p) * 256 + n % 256
        < (n / 256 % p) * 256 + 256 := Nat.add_lt_add_left hb _
    _ = (n / 256 % p + 1) * 256 := by ring
    _ ≤ p * 256 := Nat.mul_le_mul_right 256 ha
    _ = 256 * p := by ring
  calc n % (256 * p)
      = ((n / 256 % p) * 256 + n % 256 + (256 * p) * (n / 256 / p)) % (256 * p) := by
        rw [← key]
    _ = ((n / 256 % p) * 256 + n % 256) % (256 * p) := by
        rw [Nat.add_mul_mod_self_left]
    _ = (n / 256 % p) * 256 + n % 256 := Nat.mod_eq_of_lt hlt

theorem beBytes_value (k n : Nat) : wordValue (beBytes k n) = n % 256 ^ k := by
  induction k generalizing n with
  | zero => simp [beBytes, wordValue, Nat.mod_one]
  | succ k ih =>
      have hp : 0 < 256 ^ k := pow_pos (by norm_num) k
      calc wordValue (beBytes (k + 1) n)
          = wordValue (beBytes k (n / 256)) * 256 + n % 256 := by
            simp [beBytes, wordValue_append_byte]
        _ = (n / 256 % 256 ^ k) * 256 + n % 256 := by rw [ih]
        _ = n % (256 * 256 ^ k) := (mod_mul_decompose n (256 ^ k) hp).symm
        _ = n % 256 ^ (k + 1) := by rw [pow_succ, mul_comm]

theorem abiWordN_length (n : Nat) : (abiWordN n).length = 32 :=
  beBytes_length 32 _

theorem abiWordN_value (n : Nat) : wordValue (abiWordN n) = n % 2 ^ 256 := by
  have h : (256 : Nat) ^ 32 = 2 ^ 256 := by norm_num
  calc wordValue (abiWordN n) = n % 2 ^ 256 % 256 ^ 32 := beBytes_value 32 _
  _ = n % 2 ^ 256 % (2 ^ 256) := by rw [h]
  _ = n % 2 ^ 256 := Nat.mod_mod_of_dvd n dvd_rfl

theorem abiWordI_length (i : Int) : (abiWordI i).length = 32 :=
  beBytes_length 32 _

theorem abiWordI_value (i : Int) :
    (wordValue (abiWordI i) : Int) = i % 2 ^ 256 := by
  have hmod : 0 ≤ i.emod (2 ^ 256) := Int.emod_nonneg i (by norm_num)
  have hlt : i.emod (2 ^ 256) < 2 ^ 256 := Int.emod_lt_of_pos i (by norm_num)
  have hltn : (i.emod (2 ^ 256)).toNat < 2 ^ 256 := by omega
  have h256 : (256 : Nat) ^ 32 = 2 ^ 256 := by norm_num
  have hval : wordValue (abiWordI i) = (i.emod (2 ^ 256)).toNat := by
    calc wordValue (abiWordI i)
        = (i.emod (2 ^ 256)).toNat % 256 ^ 32 := beBytes_value 32 _
      _ = (i.emod (2 ^ 256)).toNat := by rw [h256]; exact Nat.mod_eq_of_lt hltn
  rw [hval, Int.toNat_of_nonneg hmod]
  rfl

theorem boolWord_length (b : Bool) : (boolWord b).length = 32 :=
  abiWordN_length _

/-! ## Evaluation lemmas for the fixed-point conversions -/

theorem decimal_to_i256_eval (n : Int) (q : ℚ) (h : q * 10 ^ 18 = (n : ℚ))
    (hlo : -(2 ^ 255) ≤ n) (hhi : n < 2 ^ 255) :
    decimal_to_i256 q = some n := by
  unfold decimal_to_i256
  simp only [h, Rat.den_intCast, Rat.num_intCast]
  exact if_pos ⟨trivial, hlo, hhi⟩

theorem decimal_to_u256_eval (n : Nat) (q : ℚ) (h : q * 10 ^ 18 = ((n : ℤ) : ℚ))
    (hhi : (n : Int) < 2 ^ 256) :
    decimal_to_u256 q = some n := by
  unfold decimal_to_u256
  simp only [h, Rat.den_intCast, Rat.num_intCast, Int.toNat_natCast]
  exact if_pos ⟨trivial, Int.natCast_nonneg n, hhi⟩

/-! ## C1: structure of the signed order digest -/

/-- C1: `get_order_signature` signs exactly
keccak(0x1901 ‖ domain_separator ‖ action_hash), where the action hash is
the keccak of the action record words {typehash, subaccount id, nonce,
module, trade hash, expiry, owner, signer} and the trade hash is the
keccak of the trade record words {address, sub-id, limit price, amount,
max fee, subaccount id, is-bid}, each record being a concatenation of
32-byte right-aligned words in that field order. -/
theorem order_signature_digest (keccak : List Nat → List Nat)
    (env : SigningEnv) (sub nonce expiry : Nat) (lpq amq mfq : ℚ)
    (is_bid : Bool) (w : Wallet) (t : Ticker) (lp am : Int) (mf : Nat)
    (hlp : decimal_to_i256 lpq = some lp)
    (ham : decimal_to_i256 amq = some am)
    (hmf : decimal_to_u256 mfq = some mf)
    (hth : env.action_typehash.length = 32)
    (hkec : ∀ l, (keccak l).length = 32) :
    get_order_signature keccak env sub nonce expiry lpq amq is_bid mfq w t =
      some (w.signFn (keccak (eip1901 ++ env.domain_sep ++
        keccak (encodeActionData
          { action_typehash := env.action_typehash
            subaccount_id := sub
            nonce := nonce
            module := env.trade_module
            data := keccak (encodeTradeData (tradeDataOf sub lp am mf is_bid t))
            expiry := expiry
            owner := env.owner
            signer := w.address })))) ∧
    encodeTradeData (tradeDataOf sub lp am mf is_bid t) =
      abiWordN t.base_asset_address ++ abiWordN t.base_asset_sub_id ++
        abiWordI lp ++ abiWordI am ++ abiWordN mf ++ abiWordN sub ++
        boolWord is_bid ∧
    (∀ n : Nat, (abiWordN n).length = 32 ∧ wordValue (abiWordN n) = n % 2 ^ 256) ∧
    (∀ i : Int, (abiWordI i).length = 32 ∧
      (wordValue (abiWordI i) : Int) = i % 2 ^ 256) ∧
    (encodeTradeData (tradeDataOf sub lp am mf is_bid t)).length = 7 * 32 ∧
    (encodeActionData
      { action_typehash := env.action_typehash
        subaccount_id := sub
        nonce := nonce
        module := env.trade_module
        data := keccak (encodeTradeData (tradeDataOf sub lp am mf is_bid t))
        expiry := expiry
        owner := env.owner
        signer := w.address }).length = 8 * 32 := by
  refine ⟨?_, rfl, fun n => ⟨abiWordN_length n, abiWordN_value n⟩,
    fun i => ⟨abiWordI_length i, abiWordI_value i⟩, ?_, ?_⟩
  · simp [get_order_signature, hlp, ham, hmf, signedDigest]
  · simp [encodeTradeData, abiWordN_length, abiWordI_length, boolWord_length]
  · simp [encodeActionData, abiWordN_length, hth, hkec]

theorem order_signature_digest_witness :
    get_order_signature exKeccak exEnv 7 11 13 1 2 true 3 exWallet exTicker =
      some [42] := by
  have h := order_signature_digest exKeccak exEnv 7 11 13 1 2 3 true exWallet
    exTicker (10 ^ 18) (2 * 10 ^ 18) (3 * 10 ^ 18)
    (decimal_to_i256_eval _ _ (by norm_num) (by norm_num) (by norm_num))
    (decimal_to_i256_eval _ _ (by norm_num) (by norm_num) (by norm_num))
    (decimal_to_u256_eval _ _ (by norm_num) (by norm_num))
    (by simp [exEnv]) (fun l => by simp [exKeccak])
  rw [h.1]
  rfl

/-! ## C10: replace signatures do not cover the cancelled order id -/

/-- C10: for identical signer, ticker, subaccount id, order arguments and
timestamps, `new_replace_params` produces exactly the same signature as
`new_order_params`, whatever order id is being cancelled —
`order_id_to_cancel` is never an input of `get_order_signature`. -/
theorem replace_signature_matches_order (keccak : List Nat → List Nat)
    (env : SigningEnv) (w : Wallet) (t : Ticker) (sub oid now_micros : Nat)
    (args : OrderArgs) :
    (new_replace_params keccak env w t sub oid args now_micros).map
        (fun r => r.signature) =
      (new_order_params keccak env w t sub args now_micros).map
        (fun p => p.signature) := by
  simp only [new_replace_params, new_order_params, Option.map_map]
  cases get_order_signature keccak env sub (get_timestamps now_micros).1
    (get_timestamps now_micros).2.2 args.limit_price args.amount
    (args.direction = Direction.Buy) (get_max_fee t) w t <;> rfl

/-! ## C9: the max fee and its place in the signed data -/

theorem encodeTradeData_maxFee_slice (td : TradeData) :
    ((encodeTradeData td).drop 128).take 32 = abiWordN td.max_fee := by
  have h32 : ∀ (a b : List Nat), a.length = 32 → ∀ n,
      (a ++ b).drop (32 + n) = b.drop n := by
    intro a b ha n
    rw [← ha, List.drop_append]
  have htake : ∀ (a b : List Nat), a.length = 32 → (a ++ b).take 32 = a := by
    intro a b ha
    rw [← ha, List.take_left]
  rw [encodeTradeData]
  simp only [List.append_assoc]
  rw [show (128 : Nat) = 32 + 96 from rfl, h32 _ _ (abiWordN_length _),
    show (96 : Nat) = 32 + 64 from rfl, h32 _ _ (abiWordN_length _),
    show (64 : Nat) = 32 + 32 from rfl, h32 _ _ (abiWordI_length _),
    show (32 : Nat) = 32 + 0 from rfl, h32 _ _ (abiWordI_length _),
    List.drop_zero, htake _ _ (abiWordN_length _)]

/-- C9: every order and every replace sets the maximum fee to exactly
3 × taker fee rate × index price of the ticker, and that max fee is the
fifth 32-byte word (bytes 128..160) of the trade record whose keccak hash
enters the signed digest. -/
theorem order_max_fee_spec (keccak : List Nat → List Nat) (env : SigningEnv)
    (w : Wallet) (t : Ticker) (sub oid now_micros : Nat) (args : OrderArgs)
    (p : OrderParams) (rp : ReplaceParams)
    (hp : new_order_params keccak env w t sub args now_micros = some p)
    (hrp : new_replace_params keccak env w t sub oid args now_micros = some rp) :
    p.max_fee = 3 * t.taker_fee_rate * t.index_price ∧
    rp.max_fee = 3 * t.taker_fee_rate * t.index_price ∧
    ∃ lp am mf,
      decimal_to_i256 args.limit_price = some lp ∧
      decimal_to_i256 args.amount = some am ∧
      decimal_to_u256 p.max_fee = some mf ∧
      ((encodeTradeData
          (tradeDataOf sub lp am mf (args.direction = Direction.Buy) t)).drop
            128).take 32 = abiWordN mf ∧
      p.signature = w.signFn (signedDigest keccak env sub
        (get_timestamps now_micros).1 (get_timestamps now_micros).2.2
        (encodeTradeData
          (tradeDataOf sub lp am mf (args.direction = Direction.Buy) t)) w) ∧
      rp.signature = p.signature := by
  rcases Option.map_eq_some'.mp hp with ⟨s, hs, hpe⟩
  rcases Option.map_eq_some'.mp hrp with ⟨s2, hs2, hrpe⟩
  rw [hs] at hs2
  have hss : s = s2 := Option.some_inj.mp hs2
  subst hss
  have hpmax : p.max_fee = get_max_fee t := by rw [← hpe]
  have hrpmax : rp.max_fee = get_max_fee t := by rw [← hrpe]
  refine ⟨by rw [hpmax, get_max_fee], by rw [hrpmax, get_max_fee], ?_⟩
  rcases hlp : decimal_to_i256 args.limit_price with _ | lp
  · rw [get_order_signature, hlp] at hs; simp at hs
  rcases ham : decimal_to_i256 args.amount with _ | am
  · rw [get_order_signature, hlp, ham] at hs; simp at hs
  rcases hmf : decimal_to_u256 (get_max_fee t) with _ | mf
  · rw [get_order_signature, hlp, ham, hmf] at hs; simp at hs
  have hsig : s = w.signFn (signedDigest keccak env sub
      (get_timestamps now_micros).1 (get_timestamps now_micros).2.2
      (encodeTradeData
        (tradeDataOf sub lp am mf (args.direction = Direction.Buy) t)) w) := by
    rw [get_order_signature, hlp, ham, hmf] at hs
    simp at hs
    exact hs.symm
  have hmf2 : decimal_to_u256 p.max_fee = some mf := by rw [hpmax]; exact hmf
  have hpsig : p.signature = s := by rw [← hpe]
  have hrpsig : rp.signature = s := by rw [← hrpe]
  exact ⟨lp, am, mf, rfl, rfl, hmf2, encodeTradeData_maxFee_slice _,
    hpsig.trans hsig, hrpsig.trans hpsig.symm⟩

theorem order_max_fee_witness :
    exOrderParams.max_fee = 3 * exTicker.taker_fee_rate * exTicker.index_price ∧
    exReplaceParams.max_fee = 3 * exTicker.taker_fee_rate * exTicker.index_price := by
  have e1 : decimal_to_i256 exArgs.limit_price = some (10 ^ 18) :=
    decimal_to_i256_eval _ _ (by norm_num [exArgs]) (by norm_num) (by norm_num)
  have e2 : decimal_to_i256 exArgs.amount = some (2 * 10 ^ 18) :=
    decimal_to_i256_eval _ _ (by norm_num [exArgs]) (by norm_num) (by norm_num)
  have e3 : decimal_to_u256 (get_max_fee exTicker) = some (3 * 10 ^ 18) :=
    decimal_to_u256_eval _ _ (by norm_num [get_max_fee, exTicker]) (by norm_num)
  have hp : new_order_params exKeccak exEnv exWallet exTicker 7 exArgs 0 =
      some exOrderParams := by
    simp only [new_order_params, get_order_signature, get_timestamps, e1, e2, e3,
      Option.some_bind, Option.map_some']
    simp [exOrderParams, exTicker, exArgs, exWallet, exSign, get_max_fee]
  have hrp : new_replace_params exKeccak exEnv exWallet exTicker 7 3 exArgs 0 =
      some exReplaceParams := by
    simp only [new_replace_params, get_order_signature, get_timestamps, e1, e2, e3,
      Option.some_bind, Option.map_some']
    simp [exReplaceParams, exOrderParams, exTicker, exArgs, exWallet, exSign,
      get_max_fee]
  have h := order_max_fee_spec exKeccak exEnv exWallet exTicker 7 3 0 exArgs
    exOrderParams exReplaceParams hp hrp
  exact ⟨h.1, h.2.1⟩

/-! ## C5: deposit reconciliation -/

/-- C5: each poll computes pending as initiated minus processed (by
deposit id), submits nothing when pending is empty, and otherwise submits
at most `MAX_TO_PROCESS_PER_CALL` (= 32) pending ids in one
process-deposits call; for initiated = [1,2,3,4] and processed = [2,4] the
pending set is [1,3] and is submitted in a single call. -/
theorem deposit_reconciliation_spec (inits procs : List Nat) :
    (∀ i, i ∈ pendingDeposits inits procs ↔ i ∈ inits ∧ i ∉ procs) ∧
    (pendingDeposits inits procs = [] → depositBatch inits procs = none) ∧
    (∀ b, depositBatch inits procs = some b →
      b.length ≤ MAX_TO_PROCESS_PER_CALL ∧
      b = (pendingDeposits inits procs).take MAX_TO_PROCESS_PER_CALL ∧
      pendingDeposits inits procs ≠ []) ∧
    pendingDeposits [1, 2, 3, 4] [2, 4] = [1, 3] ∧
    depositBatch [1, 2, 3, 4] [2, 4] = some [1, 3] := by
  refine ⟨?_, ?_, ?_, by decide, by decide⟩
  · intro i
    simp [pendingDeposits, List.mem_filter, List.elem_iff]
  · intro h
    rw [depositBatch, h]
    rfl
  · intro b hb
    rw [depositBatch] at hb
    rcases he : (pendingDeposits inits procs).isEmpty with _ | _
    · rw [he] at hb
      simp at hb
      refine ⟨hb ▸ List.length_take_le _ _, hb.symm, ?_⟩
      intro hnil
      rw [hnil] at he
      simp at he
    · rw [he] at hb
      simp at hb

theorem deposit_reconciliation_witness :
    depositBatch [1, 2, 3, 4] [2, 4] = some [1, 3] ∧
    ([1, 3] : List Nat).length ≤ MAX_TO_PROCESS_PER_CALL := by
  have h := deposit_reconciliation_spec [1, 2, 3, 4] [2, 4]
  have hb := h.2.2.2.2
  exact ⟨hb, by simpa using (h.2.2.1 [1, 3] hb).1⟩

/-! ## C7: the auction spread schedule -/

/-- C7: the IV-spread schedule equals the configured initial spread at
zero elapsed time, is monotonically non-decreasing in elapsed time, and
never exceeds the configured maximum spread (for a well-formed schedule:
initial spread at most the maximum, non-negative widening rate). -/
theorem iv_spread_schedule (p : OptionAuctionParams) (start t1 t2 : Int)
    (hinit : p.init_iv_spread ≤ p.max_iv_spread)
    (hrate : 0 ≤ p.iv_spread_per_min) :
    p.get_iv_spread start start = p.init_iv_spread ∧
    (t1 ≤ t2 → p.get_iv_spread start t1 ≤ p.get_iv_spread start t2) ∧
    p.get_iv_spread start t1 ≤ p.max_iv_spread := by
  refine ⟨?_, ?_, min_le_right _ _⟩
  · rw [OptionAuctionParams.get_iv_spread]
    simp [hinit]
  · intro h12
    apply min_le_min _ le_rfl
    apply add_le_add_left
    apply mul_le_mul_of_nonneg_right _ hrate
    apply div_le_div_of_nonneg_right _ (by norm_num)
    exact_mod_cast sub_le_sub_right h12 start

/-! ## Rounding lemmas for the spot sizing step -/

theorem ratTrunc_of_nonneg (x : ℚ) (hx : 0 ≤ x) : ratTrunc x = ⌊x⌋ :=
  if_pos hx

theorem zpow_ten_pos (d : Int) : (0 : ℚ) < (10 : ℚ) ^ d :=
  zpow_pos (by norm_num) d

theorem zpow_ten_cancel (d : Int) : (10 : ℚ) ^ d * (10 : ℚ) ^ (-d) = 1 := by
  rw [← zpow_add₀ (by norm_num : (10 : ℚ) ≠ 0)]
  simp

theorem roundScaleDown_zero (d : Int) : roundScaleDown 0 d = 0 := by
  rw [roundScaleDown, zero_mul, ratTrunc_of_nonneg 0 le_rfl]
  simp

theorem roundScaleDown_nonneg (x : ℚ) (d : Int) (hx : 0 ≤ x) :
    0 ≤ roundScaleDown x d := by
  rw [roundScaleDown, ratTrunc_of_nonneg _ (by positivity)]
  have : (0 : ℚ) ≤ (⌊x * (10 : ℚ) ^ d⌋ : ℚ) := by
    exact_mod_cast Int.floor_nonneg.mpr (by positivity)
  positivity

theorem roundScaleDown_le (x : ℚ) (d : Int) (hx : 0 ≤ x) :
    roundScaleDown x d ≤ x := by
  rw [roundScaleDown, ratTrunc_of_nonneg _ (by positivity)]
  have hfl : ((⌊x * (10 : ℚ) ^ d⌋ : ℚ)) ≤ x * (10 : ℚ) ^ d := Int.floor_le _
  calc ((⌊x * (10 : ℚ) ^ d⌋ : ℚ)) * (10 : ℚ) ^ (-d)
      ≤ x * (10 : ℚ) ^ d * (10 : ℚ) ^ (-d) :=
        mul_le_mul_of_nonneg_right hfl (zpow_ten_pos (-d)).le
    _ = x * ((10 : ℚ) ^ d * (10 : ℚ) ^ (-d)) := by ring
    _ = x := by rw [zpow_ten_cancel, mul_one]

theorem lt_roundScaleDown_add (x : ℚ) (d : Int) (hx : 0 ≤ x) :
    x < roundScaleDown x d + (10 : ℚ) ^ (-d) := by
  rw [roundScaleDown, ratTrunc_of_nonneg _ (by positivity)]
  have hfl : x * (10 : ℚ) ^ d < (⌊x * (10 : ℚ) ^ d⌋ : ℚ) + 1 :=
    Int.lt_floor_add_one _
  calc x = x * ((10 : ℚ) ^ d * (10 : ℚ) ^ (-d)) := by
        rw [zpow_ten_cancel, mul_one]
    _ = x * (10 : ℚ) ^ d * (10 : ℚ) ^ (-d) := by ring
    _ < ((⌊x * (10 : ℚ) ^ d⌋ : ℚ) + 1) * (10 : ℚ) ^ (-d) :=
        mul_lt_mul_of_pos_right hfl (zpow_ten_pos (-d))
    _ = (⌊x * (10 : ℚ) ^ d⌋ : ℚ) * (10 : ℚ) ^ (-d) + (10 : ℚ) ^ (-d) := by ring

theorem roundScaleDown_is_multiple (x : ℚ) (d : Int) :
    ∃ k : ℤ, roundScaleDown x d = (k : ℚ) * (10 : ℚ) ^ (-d) :=
  ⟨ratTrunc (x * (10 : ℚ) ^ d), rfl⟩

/-- The sizing step written as a single conditional over the sign of the
cash amount, for a positive price. -/
theorem spotSizing_eq (t : Ticker) (c price : ℚ) (hprice : 0 < price) :
    spotSizing t c price =
      if c = 0 then (Direction.Sell, 0)
      else if spotRounded t c price < t.minimum_amount then (Direction.Sell, 0)
      else ((if c < 0 then Direction.Sell else Direction.Buy),
        spotRounded t c price) := by
  rcases lt_trichotomy c 0 with hlt | heq | hgt
  · have hamt : c / price < 0 := div_neg_of_neg_of_pos hlt hprice
    have habs : |c / price| = -(c / price) := abs_of_neg hamt
    rw [spotSizing, if_neg hlt.ne, if_pos hlt]
    simp only [spotRounded, habs]
    rw [if_pos hamt.le]
  · subst heq
    rw [spotSizing, if_pos rfl]
    simp only [zero_div, neg_zero, le_refl, if_pos, roundScaleDown_zero]
    split <;> rfl
  · have hamt : 0 < c / price := div_pos hgt hprice
    have habs : |c / price| = c / price := abs_of_pos hamt
    rw [spotSizing, if_neg hgt.ne', if_neg (not_lt.mpr hgt.le)]
    simp only [spotRounded, habs]
    rw [if_neg (not_le.mpr hamt)]

/-! ## C2: the spot rebalance sizing rule -/

/-- C2 counterexample: with amount step 0.02 the step's fractional-digit
count is 2, so a raw size of 0.03 is submitted unchanged as 0.03 — which
is not a multiple of the amount step. The size is therefore not "rounded
down to the instrument's amount step" for non-power-of-ten steps. -/
theorem spot_rebalance_rounding_counterexample :
    oddStepTicker.amount_step.toRat = 2 / 100 ∧
    get_desired_amount spotParams oddStepAuction 100 10 =
      some (Direction.Sell, 3 / 100) ∧
    ¬ ∃ k : ℤ, (3 / 100 : ℚ) = (k : ℚ) * oddStepTicker.amount_step.toRat := by
  have hstep : oddStepTicker.amount_step.toRat = 2 / 100 := by
    norm_num [Decimal.toRat, oddStepTicker]
  refine ⟨hstep, ?_, ?_⟩
  · simp only [get_desired_amount,
      show oddStepAuction.market.get_ticker oddStepAuction.instrument_name =
        some oddStepTicker from rfl,
      show oddStepAuction.market.get_position spotParams.cash_name =
        some (⟨-3 / 10⟩ : Position) from rfl]
    norm_num [spotParams, LimitOrderAuction.remain_sec, oddStepAuction,
      spotSizing, spotRounded, roundScaleDown, ratTrunc, oddStepTicker,
      exTicker, Decimal.fractional_digit_count]
  · rw [hstep]
    rintro ⟨k, hk⟩
    have hk2 : (3 : ℚ) = (k : ℚ) * 2 := by
      field_simp at hk
      linarith
    have hk3 : (3 : ℤ) = k * 2 := by exact_mod_cast hk2
    omega

/-- C2 (amended): with the auction ticker and cash position present, a
positive price and a running auction clock, `get_desired_amount` sells
size |cash/price| for negative cash, buys size cash/price for positive
cash, and no-ops at zero cash; the traded size is the raw size rounded
down (toward zero) at the amount step's fractional-digit count — that is,
to a multiple of 10^(-digits), which agrees with rounding to the amount
step itself only for unit power-of-ten steps — and a rounded size below
the minimum amount yields the no-op. -/
theorem spot_rebalance_amount_spec (p : SpotAuctionParams)
    (a : LimitOrderAuction) (now : Int) (price : ℚ) (t : Ticker)
    (cash : Position)
    (ht : a.market.get_ticker a.instrument_name = some t)
    (hc : a.market.get_position p.cash_name = some cash)
    (hprice : 0 < price)
    (hrun : 0 < a.remain_sec now) :
    get_desired_amount p a now price =
      some (if cash.amount = 0 then (Direction.Sell, 0)
        else if spotRounded t cash.amount price < t.minimum_amount then
          (Direction.Sell, 0)
        else ((if cash.amount < 0 then Direction.Sell else Direction.Buy),
          spotRounded t cash.amount price)) ∧
    0 ≤ spotRounded t cash.amount price ∧
    (∃ k : ℤ, spotRounded t cash.amount price =
      (k : ℚ) * (10 : ℚ) ^ (-t.amount_step.fractional_digit_count)) ∧
    spotRounded t cash.amount price ≤ |cash.amount / price| ∧
    |cash.amount / price| < spotRounded t cash.amount price +
      (10 : ℚ) ^ (-t.amount_step.fractional_digit_count) := by
  refine ⟨?_, ?_, ?_, ?_, ?_⟩
  · simp only [get_desired_amount, ht, hc]
    rw [if_neg hprice.ne', if_neg (fun hcon => absurd hcon.1 (not_le.mpr hrun)),
      spotSizing_eq t cash.amount price hprice]
  · exact roundScaleDown_nonneg _ _ (abs_nonneg _)
  · exact roundScaleDown_is_multiple _ _
  · exact roundScaleDown_le _ _ (abs_nonneg _)
  · exact lt_roundScaleDown_add _ _ (abs_nonneg _)

theorem spot_rebalance_amount_witness :
    get_desired_amount spotParams sellAuction 100 10 =
      some (Direction.Sell, 10) ∧
    get_desired_amount spotParams buyAuction 100 5 =
      some (Direction.Buy, 10) := by
  constructor
  · have h := spot_rebalance_amount_spec spotParams sellAuction 100 10 exTicker
      ⟨-100⟩ rfl rfl (by norm_num) (by decide)
    rw [h.1]
    norm_num [spotRounded, roundScaleDown, ratTrunc, exTicker,
      Decimal.fractional_digit_count]
  · have h := spot_rebalance_amount_spec spotParams buyAuction 100 5 exTicker
      ⟨50⟩ rfl rfl (by norm_num) (by decide)
    rw [h.1]
    norm_num [spotRounded, roundScaleDown, ratTrunc, exTicker,
      Decimal.fractional_digit_count]

/-! ## C4: the termination guard is one-sided, not a magnitude band -/

/-- C4 counterexample: once the window has elapsed, a residual cash of
+100 lies far outside the max-cash band of 10, yet the policy emits the
zero-size no-op instead of continuing to produce orders: the guard only
compares cash against -max_cash. -/
theorem spot_auction_termination_counterexample :
    LimitOrderAuction.remain_sec lateAuction 60 ≤ 0 ∧
    MarketState.get_position lateAuction.market spotParams.cash_name =
      some ⟨100⟩ ∧
    spotParams.max_cash < |(100 : ℚ)| ∧
    get_desired_amount spotParams lateAuction 60 10 =
      some (Direction.Sell, 0) := by
  refine ⟨by decide, rfl, by norm_num [spotParams], ?_⟩
  simp only [get_desired_amount,
    show lateAuction.market.get_ticker lateAuction.instrument_name =
      some exTicker from rfl,
    show lateAuction.market.get_position spotParams.cash_name =
      some (⟨100⟩ : Position) from rfl]
  norm_num [spotParams, LimitOrderAuction.remain_sec, lateAuction]

/-- C4 (amended): once the nominal window has elapsed (remain_sec ≤ 0),
`get_desired_amount` emits the zero-size no-op exactly when the cash
amount is strictly greater than -max_cash (a one-sided check, not a
magnitude band: arbitrarily large positive cash also stops); when the
cash amount is at most -max_cash it keeps producing the normal sizing
result past the nominal duration. -/
theorem spot_auction_termination_guard (p : SpotAuctionParams)
    (a : LimitOrderAuction) (now : Int) (price : ℚ) (t : Ticker)
    (cash : Position)
    (ht : a.market.get_ticker a.instrument_name = some t)
    (hc : a.market.get_position p.cash_name = some cash)
    (hprice : price ≠ 0)
    (hdone : a.remain_sec now ≤ 0) :
    get_desired_amount p a now price =
      some (if cash.amount > -p.max_cash then (Direction.Sell, 0)
        else spotSizing t cash.amount price) := by
  simp only [get_desired_amount, ht, hc]
  rw [if_neg hprice]
  by_cases hg : cash.amount > -p.max_cash
  · rw [if_pos ⟨hdone, hg⟩, if_pos hg]
  · rw [if_neg (fun hcon => hg hcon.2), if_neg hg]

theorem spot_auction_termination_witness :
    get_desired_amount spotParams lateAuction 60 10 =
      some (Direction.Sell, 0) := by
  have h := spot_auction_termination_guard spotParams lateAuction 60 10 exTicker
    ⟨100⟩ rfl rfl (by norm_num) (by decide)
  rw [h]
  norm_num [spotParams]

/-! ## C8: lookup failures of the spot policy -/

/-- C8 counterexample: with the auction ticker present but the cash
position absent from the snapshot, both policy operations succeed with the
no-op sentinel (Ok) instead of returning an error. -/
theorem spot_missing_position_counterexample :
    MarketState.get_position noCashAuction.market spotParams.cash_name =
      none ∧
    get_desired_price spotParams noCashAuction 0 = some 0 ∧
    get_desired_amount spotParams noCashAuction 0 10 =
      some (Direction.Sell, 0) := by
  refine ⟨rfl, ?_, ?_⟩ <;>
    simp only [get_desired_price, get_desired_amount,
      show noCashAuction.market.get_ticker noCashAuction.instrument_name =
        some exTicker from rfl,
      show noCashAuction.market.get_position spotParams.cash_name =
        none from rfl]

/-- C8 (amended): a missing auction ticker makes both `get_desired_price`
and `get_desired_amount` return an error (`none`); a missing cash position
does not — both operations then succeed with the no-op sentinel
(price 0, respectively (Sell, 0)). -/
theorem spot_lookup_failure_modes (p : SpotAuctionParams)
    (a : LimitOrderAuction) (now : Int) (price : ℚ) :
    (a.market.get_ticker a.instrument_name = none →
      get_desired_price p a now = none ∧
      get_desired_amount p a now price = none) ∧
    (∀ t, a.market.get_ticker a.instrument_name = some t →
      a.market.get_position p.cash_name = none →
      get_desired_price p a now = some 0 ∧
      get_desired_amount p a now price = some (Direction.Sell, 0)) := by
  constructor
  · intro h
    constructor <;> simp only [get_desired_price, get_desired_amount, h]
  · intro t ht hc
    constructor <;> simp only [get_desired_price, get_desired_amount, ht, hc]

theorem spot_lookup_failure_witness :
    get_desired_price spotParams noCashAuction 5 = some 0 ∧
    get_desired_amount spotParams noCashAuction 5 7 =
      some (Direction.Sell, 0) :=
  (spot_lookup_failure_modes spotParams noCashAuction 5 7).2 exTicker rfl rfl

theorem iv_spread_schedule_witness :
    exIvParams.init_iv_spread ≤ exIvParams.max_iv_spread ∧
    (exIvParams.get_iv_spread 0 0 = exIvParams.init_iv_spread ∧
      ((60 : Int) ≤ 120 →
        exIvParams.get_iv_spread 0 60 ≤ exIvParams.get_iv_spread 0 120) ∧
      exIvParams.get_iv_spread 0 60 ≤ exIvParams.max_iv_spread) :=
  ⟨by norm_num [exIvParams],
    iv_spread_schedule exIvParams 0 60 120 (by norm_num [exIvParams])
      (by norm_num [exIvParams])⟩

/-! ## Minimum-by-key and maximum lemmas for the selector -/

theorem minByKeyAux_mem (key : Ticker → ℚ) :
    ∀ (ts : List Ticker) (t : Ticker), minByKeyAux key t ts ∈ t :: ts := by
  intro ts
  induction ts with
  | nil => intro t; simp [minByKeyAux]
  | cons u us ih =>
    intro t
    rw [minByKeyAux]
    by_cases hle : key t ≤ key u
    · rw [if_pos hle]
      rcases List.mem_cons.mp (ih t) with h | h
      · rw [h]; exact List.mem_cons_self t _
      · exact List.mem_cons_of_mem t (List.mem_cons_of_mem u h)
    · rw [if_neg hle]
      rcases List.mem_cons.mp (ih u) with h | h
      · rw [h]; exact List.mem_cons_of_mem t (List.mem_cons_self u _)
      · exact List.mem_cons_of_mem t (List.mem_cons_of_mem u h)

theorem minByKeyAux_le (key : Ticker → ℚ) :
    ∀ (ts : List Ticker) (t : Ticker) (u : Ticker), u ∈ t :: ts →
      key (minByKeyAux key t ts) ≤ key u := by
  intro ts
  induction ts with
  | nil =>
    intro t u hu
    rcases List.mem_cons.mp hu with rfl | h
    · exact le_rfl
    · simp at h
  | cons v vs ih =>
    intro t u hu
    rw [minByKeyAux]
    have hacc : key (if key t ≤ key v then t else v) ≤ key t ∧
        key (if key t ≤ key v then t else v) ≤ key v := by
      by_cases hle : key t ≤ key v
      · rw [if_pos hle]; exact ⟨le_rfl, hle⟩
      · rw [if_neg hle]; exact ⟨(not_le.mp hle).le, le_rfl⟩
    rcases List.mem_cons.mp hu with rfl | hu2
    · exact le_trans (ih _ _ (List.mem_cons_self _ _)) hacc.1
    · rcases List.mem_cons.mp hu2 with rfl | hu3
      · exact le_trans (ih _ _ (List.mem_cons_self _ _)) hacc.2
      · exact ih _ u (List.mem_cons_of_mem _ hu3)

theorem minByKeyFirst_eq_none_iff (key : Ticker → ℚ) (l : List Ticker) :
    minByKeyFirst key l = none ↔ l = [] := by
  cases l <;> simp [minByKeyFirst]

theorem minByKeyFirst_mem (key : Ticker → ℚ) (l : List Ticker) (t : Ticker)
    (h : minByKeyFirst key l = some t) : t ∈ l := by
  cases l with
  | nil => simp [minByKeyFirst] at h
  | cons x xs =>
    rw [minByKeyFirst] at h
    exact (Option.some_inj.mp h) ▸ minByKeyAux_mem key xs x

theorem minByKeyFirst_le (key : Ticker → ℚ) (l : List Ticker) (t : Ticker)
    (h : minByKeyFirst key l = some t) : ∀ u ∈ l, key t ≤ key u := by
  cases l with
  | nil => simp [minByKeyFirst] at h
  | cons x xs =>
    rw [minByKeyFirst] at h
    intro u hu
    exact (Option.some_inj.mp h) ▸ minByKeyAux_le key xs x u hu

theorem listMaxAux_mem : ∀ (ys : List Int) (x : Int),
    listMaxAux x ys = x ∨ listMaxAux x ys ∈ ys := by
  intro ys
  induction ys with
  | nil => intro x; left; rfl
  | cons y ys2 ih =>
    intro x
    rw [listMaxAux]
    rcases ih (max x y) with h | h
    · rcases max_choice x y with hc | hc
      · left; rw [h, hc]
      · right; rw [h, hc]; exact List.mem_cons_self y _
    · right; exact List.mem_cons_of_mem y h

theorem listMaxAux_ge : ∀ (ys : List Int) (x : Int) (u : Int),
    (u = x ∨ u ∈ ys) → u ≤ listMaxAux x ys := by
  intro ys
  induction ys with
  | nil =>
    intro x u hu
    rcases hu with rfl | h
    · exact le_rfl
    · simp at h
  | cons y ys2 ih =>
    intro x u hu
    rw [listMaxAux]
    rcases hu with rfl | hu2
    · exact le_trans (le_max_left u y) (ih _ _ (Or.inl rfl))
    · rcases List.mem_cons.mp hu2 with rfl | hu3
      · exact le_trans (le_max_right x u) (ih _ _ (Or.inl rfl))
      · exact ih _ u (Or.inr hu3)

theorem listMax_eq_none_iff (l : List Int) : listMax l = none ↔ l = [] := by
  cases l <;> simp [listMax]

theorem listMax_mem (l : List Int) (x : Int) (h : listMax l = some x) :
    x ∈ l := by
  cases l with
  | nil => simp [listMax] at h
  | cons y ys =>
    rw [listMax] at h
    rcases listMaxAux_mem ys y with h2 | h2
    · rw [← Option.some_inj.mp h, h2]
      exact List.mem_cons_self y _
    · rw [← Option.some_inj.mp h]
      exact List.mem_cons_of_mem y h2

theorem listMax_ge (l : List Int) (x : Int) (h : listMax l = some x) :
    ∀ y ∈ l, y ≤ x := by
  cases l with
  | nil => simp [listMax] at h
  | cons z zs =>
    intro y hy
    rw [listMax] at h
    rw [← Option.some_inj.mp h]
    rcases List.mem_cons.mp hy with rfl | hy2
    · exact listMaxAux_ge zs y y (Or.inl rfl)
    · exact listMaxAux_ge zs z y (Or.inr hy2)

/-! ## C3: delta selection uses one strict threshold, not a cap plus target -/

theorem selectByDelta_example :
    selectByDelta (3 / 10) [tD20, tD35, tD50] = some "ETH-D20" := by
  have hf : [tD20, tD35, tD50].filter (hasDeltaBelow (3 / 10)) = [tD20] := by
    simp only [List.filter, hasDeltaBelow, tD20, tD35, tD50, exTicker]
    norm_num
  rw [selectByDelta, hf]
  rfl

/-- C3 counterexample: with live deltas {0.2, 0.35, 0.5} and the
configured delta 0.3, `select_option`'s delta stage picks the 0.2
instrument, not the 0.35 one the claim predicts: the filter is the strict
`delta < configured delta` applied with the same single parameter that is
also the distance target, so 0.35 is excluded even though it is within
the alleged 0.4 cap. -/
theorem selectByDelta_counterexample :
    selectByDelta (3 / 10) [tD20, tD35, tD50] = some "ETH-D20" ∧
    selectByDelta (3 / 10) [tD20, tD35, tD50] ≠ some "ETH-D35" ∧
    ((35 : ℚ) / 100 ≤ 4 / 10 ∧ (2 : ℚ) / 10 ≤ 4 / 10) := by
  refine ⟨selectByDelta_example, ?_, by norm_num, by norm_num⟩
  rw [selectByDelta_example]
  simp

/-- C3 (amended): the delta stage of `select_option` keeps exactly the
tickers whose live delta is strictly below the single configured delta
parameter, and among them returns the name of the first one minimizing
the absolute distance to that same parameter; it errors (`none`) exactly
when no ticker passes the filter. With deltas {0.2, 0.35, 0.5} and
configured delta 0.3 it therefore selects the 0.2 instrument. -/
theorem selectByDelta_spec (desired : ℚ) (ts : List Ticker) :
    (selectByDelta desired ts = none ↔
      ts.filter (hasDeltaBelow desired) = []) ∧
    (∀ name, selectByDelta desired ts = some name →
      ∃ t ∈ ts.filter (hasDeltaBelow desired),
        t.instrument_name = name ∧
        (∀ pr, t.option_pricing = some pr → pr.delta < desired) ∧
        ∀ u ∈ ts.filter (hasDeltaBelow desired),
          deltaKey desired t ≤ deltaKey desired u) := by
  constructor
  · rw [selectByDelta, Option.map_eq_none']
    exact minByKeyFirst_eq_none_iff _ _
  · intro name hname
    rcases Option.map_eq_some'.mp hname with ⟨t, ht, hteq⟩
    refine ⟨t, minByKeyFirst_mem _ _ _ ht, hteq, ?_, minByKeyFirst_le _ _ _ ht⟩
    intro pr hpr
    have hmem := minByKeyFirst_mem _ _ _ ht
    have hfil := (List.mem_filter.mp hmem).2
    rw [hasDeltaBelow, hpr] at hfil
    exact of_decide_eq_true hfil

theorem selectByDelta_spec_witness :
    selectByDelta (3 / 10) [tD20, tD35, tD50] = some "ETH-D20" ∧
    (∃ t ∈ [tD20, tD35, tD50].filter (hasDeltaBelow (3 / 10)),
      t.instrument_name = "ETH-D20" ∧
      (∀ pr, t.option_pricing = some pr → pr.delta < 3 / 10) ∧
      ∀ u ∈ [tD20, tD35, tD50].filter (hasDeltaBelow (3 / 10)),
        deltaKey (3 / 10) t ≤ deltaKey (3 / 10) u) :=
  ⟨selectByDelta_example,
    (selectByDelta_spec (3 / 10) [tD20, tD35, tD50]).2 "ETH-D20"
      selectByDelta_example⟩

/-! ## C6: the expiry bucket has no minimum-expiry floor -/

theorem select_option_short_example :
    select_option 0 c6params.expiry_sec (3 / 10) [iShort] shortTickerFor =
      some "ETH-1H-C" := by
  have he : selectExpiry 0 c6params.expiry_sec [iShort] = some 3600 := by decide
  have hn : (([iShort].filter
      (optionFilter 0 c6params.expiry_sec)).filter
        (fun r => instrumentExpiry r = 3600)).map Instrument.instrument_name =
      ["ETH-1H-C"] := by decide
  simp only [select_option, he, hn]
  have hm : (["ETH-1H-C"].filterMap shortTickerFor) = [tShort] := rfl
  rw [hm]
  have hf : [tShort].filter (hasDeltaBelow (3 / 10)) = [tShort] := by
    simp only [List.filter, hasDeltaBelow, tShort, exTicker]
    norm_num
  rw [selectByDelta, hf]
  rfl

/-- C6 counterexample: an active call expiring in one hour sits below the
configured 12-hour minimum-expiry floor, yet the whole fresh selection
still succeeds on it (and its expiry bucket is chosen): `select_option`
applies no minimum-expiry filter, so nothing fails when only
floor-violating buckets exist. -/
theorem select_expiry_counterexample :
    selectExpiry 0 c6params.expiry_sec [iShort] = some 3600 ∧
    (3600 : Int) < 0 + c6params.min_expiry_sec ∧
    select_option 0 c6params.expiry_sec (3 / 10) [iShort] shortTickerFor =
      some "ETH-1H-C" := by
  exact ⟨by decide, by decide, select_option_short_example⟩

/-- C6 (amended): the fresh-selection expiry stage keeps the active call
options whose expiry is strictly before now + horizon (the instrument
query itself already excludes expired instruments), chooses the bucket
with the latest such expiry, and errors exactly when no instrument passes
this filter; the configured minimum-expiry floor is not applied here. -/
theorem selectExpiry_spec (now horizon : Int) (insts : List Instrument) :
    (selectExpiry now horizon insts = none ↔
      insts.filter (optionFilter now horizon) = []) ∧
    (∀ e, selectExpiry now horizon insts = some e →
      (∃ r ∈ insts.filter (optionFilter now horizon),
        instrumentExpiry r = e) ∧
      ∀ r ∈ insts.filter (optionFilter now horizon),
        instrumentExpiry r ≤ e) ∧
    (∀ r ∈ insts.filter (optionFilter now horizon),
      r.is_active = true ∧
      ∀ d, r.option_details = some d →
        d.option_type.is_call = true ∧ d.expiry < now + horizon) := by
  refine ⟨?_, ?_, ?_⟩
  · rw [selectExpiry, listMax_eq_none_iff, List.map_eq_nil_iff]
  · intro e he
    rw [selectExpiry] at he
    constructor
    · rcases List.mem_map.mp (listMax_mem _ _ he) with ⟨r, hr, hre⟩
      exact ⟨r, hr, hre⟩
    · intro r hr
      exact listMax_ge _ _ he _ (List.mem_map_of_mem _ hr)
  · intro r hr
    have hfil := (List.mem_filter.mp hr).2
    rw [optionFilter] at hfil
    rcases hd : r.option_details with _ | d <;> rw [hd] at hfil
    · exact absurd hfil (by simp)
    · simp only [Bool.and_eq_true, decide_eq_true_eq] at hfil
      refine ⟨hfil.1.1, fun d2 hd2 => ?_⟩
      obtain rfl := Option.some_inj.mp hd2
      exact ⟨hfil.1.2, hfil.2⟩

theorem selectExpiry_spec_witness :
    selectExpiry 0 604800 [iT1, iT2] = some 172800 ∧
    ((∃ r ∈ [iT1, iT2].filter (optionFilter 0 604800),
        instrumentExpiry r = 172800) ∧
      ∀ r ∈ [iT1, iT2].filter (optionFilter 0 604800),
        instrumentExpiry r ≤ 172800) :=
  ⟨by decide,
    (selectExpiry_spec 0 604800 [iT1, iT2]).2.1 172800 (by decide)⟩

end Cockpit
